import Mathlib

/-!
# Verification of the `ls_oxide` directory-listing utility

A shallow embedding of the listing pipeline of `src/dir_utils.rs`,
`src/args.rs` and `src/main.rs`: metadata extraction, hidden-file and
almost-all filtering, comparator-based sorting, short/long rendering,
and the recursive walker.  Host facilities the program calls out to
(the `users` account database, `chrono` time formatting, the current
clock) are injected as parameters; fallible filesystem reads are
modelled with `Option`, a panic (`expect`) as `none`.
-/

namespace LsOxide

/-- The file-type distinction carried by filesystem metadata.  The Rust
code only queries `is_dir`; `regular` versus `other` (symlink, fifo,
socket, ...) is kept because directory entries of those kinds exist in
the program's domain. -/
inductive FileType where
  | dir
  | regular
  | other
deriving DecidableEq

/-- The fields of `std::fs::Metadata` that the program reads: `is_dir`,
`permissions().mode()`, `len()`, `nlink()`, `uid()`, `gid()` and
`modified()` (which can fail, hence `Option`). -/
structure Metadata where
  ftype : FileType
  mode : Nat
  len : Nat
  nlink : Nat
  uid : Nat
  gid : Nat
  modified : Option Nat
deriving DecidableEq

/-- `Metadata::is_dir`. -/
def Metadata.isDir (m : Metadata) : Bool :=
  match m.ftype with
  | .dir => true
  | _ => false

/-- One successfully yielded `fs::DirEntry`: the file name together with
the result of `entry.metadata()` (`none` models a failed metadata read). -/
structure RawEntry where
  name : String
  meta : Option Metadata
deriving DecidableEq

/-- The `FileInfo` record of `dir_utils.rs` (field names as in the source). -/
structure FileInfo where
  permissions : String
  links : String
  owner : String
  group : String
  size : String
  modified : String
  name : String
  is_dir : Bool
  file_size : Nat
  modified_time : Nat
deriving DecidableEq

/-- Ambient host facilities used by `get_file_info`: the `users` crate's
uid/gid lookups, `chrono`'s `%b %e %H:%M` local-time formatter, and the
clock behind `SystemTime::now()`.  Injected so the embedding is pure. -/
structure Env where
  userDb : Nat → Option String
  groupDb : Nat → Option String
  fmtTime : Nat → String
  now : Nat

/-- `format_rwx` of `dir_utils.rs`. -/
def format_rwx (bits : Nat) : String :=
  let r := if bits &&& 0b100 ≠ 0 then "r" else "-"
  let w := if bits &&& 0b010 ≠ 0 then "w" else "-"
  let x := if bits &&& 0b001 ≠ 0 then "x" else "-"
  r ++ w ++ x

/-- `format_mode` of `dir_utils.rs`. -/
def format_mode (mode : Nat) : String :=
  let user := (mode >>> 6) &&& 0o7
  let group := (mode >>> 3) &&& 0o7
  let other := mode &&& 0o7
  format_rwx user ++ format_rwx group ++ format_rwx other

/-- `add_file_type_indicator` of `dir_utils.rs`. -/
def add_file_type_indicator (name : String) (metadata : Metadata) : String :=
  let indicator :=
    if metadata.isDir then "/"
    else if metadata.mode &&& 0o111 ≠ 0 then "*"
    else ""
  name ++ indicator

/-- The binary-magnitude unit for exponent `e` (1024 ^ e bytes). -/
def sizeUnit : Nat → String
  | 0 => "B"
  | 1 => "KiB"
  | 2 => "MiB"
  | 3 => "GiB"
  | 4 => "TiB"
  | 5 => "PiB"
  | _ => "EiB"

/-- Largest exponent `e` with `1024 ^ e ≤ n` (0 for `n < 1024`), capped at 6. -/
def sizeExp (n : Nat) : Nat :=
  if n < 1024 then 0
  else if n < 1024 ^ 2 then 1
  else if n < 1024 ^ 3 then 2
  else if n < 1024 ^ 4 then 3
  else if n < 1024 ^ 5 then 4
  else if n < 1024 ^ 6 then 5
  else 6

/-- Modelled from the spec: the external `humansize` crate's `format_size`
with `BINARY` options, which is not part of this repository's sources —
"binary-unit (KiB/MiB/...) human-readable string": scale by the largest
binary magnitude not exceeding the value, keep at most two decimal places,
trim trailing zeros, and append the unit after a space. -/
def format_size (n : Nat) : String :=
  let e := sizeExp n
  let denom := 1024 ^ e
  let scaled := (n * 100 + denom / 2) / denom
  let whole := scaled / 100
  let frac := scaled % 100
  let fracStr :=
    if frac = 0 then ""
    else if frac % 10 = 0 then "." ++ toString (frac / 10)
    else "." ++ (if frac < 10 then "0" else "") ++ toString frac
  toString whole ++ fracStr ++ " " ++ sizeUnit e

/-- `get_file_info` of `dir_utils.rs`. -/
def get_file_info (env : Env) (human_readable : Bool) (entry : RawEntry) :
    Option FileInfo := do
  let metadata ← entry.meta
  let file_name := entry.name
  let mode := metadata.mode
  let permissions := (if metadata.isDir then "d" else "-") ++ format_mode mode
  let links := toString metadata.nlink
  let file_size := metadata.len
  let size :=
    if metadata.isDir then "-"
    else if human_readable then format_size file_size
    else toString file_size
  let owner := (env.userDb metadata.uid).getD (toString metadata.uid)
  let group := (env.groupDb metadata.gid).getD (toString metadata.gid)
  let modified_time := metadata.modified.getD env.now
  let modified_str := env.fmtTime modified_time
  some { permissions, links, owner, group, size, modified := modified_str,
         name := file_name, is_dir := metadata.isDir, file_size, modified_time }

/-- Byte/char comparison underlying Rust's `Ord` for `String`
(numeric comparison of scalar values). -/
def cmpCharList : List Char → List Char → Ordering
  | [], [] => .eq
  | [], _ :: _ => .lt
  | _ :: _, [] => .gt
  | a :: as, b :: bs =>
    match compare a.toNat b.toNat with
    | .eq => cmpCharList as bs
    | o => o

/-- Rust's `String::cmp`: lexicographic comparison. -/
def cmpStr (a b : String) : Ordering := cmpCharList a.data b.data

/-- Insert `x` into `l`, keeping `x` after every element it does not
strictly precede: the insertion step of a stable comparator sort. -/
def sortInsert (cmp : α → α → Ordering) (x : α) : List α → List α
  | [] => [x]
  | y :: ys =>
    if cmp x y = Ordering.gt then y :: sortInsert cmp x ys else x :: y :: ys

/-- Stable comparator sort, modelling Rust's `slice::sort_by`
(stable; sorted so that adjacent elements never compare `Greater`). -/
def sortBy (cmp : α → α → Ordering) : List α → List α
  | [] => []
  | x :: xs => sortInsert cmp x (sortBy cmp xs)

/-- Rust's `str::starts_with('.')` with a `char` pattern: the first
character is `.`. -/
def startsWithDot (s : String) : Bool :=
  match s.data with
  | [] => false
  | c :: _ => c == '.'

/-- Rust's `str::ends_with(c)` with a `char` pattern: the last character
is `c`. -/
def endsWithChar (s : String) (c : Char) : Bool := s.data.getLast? == some c

/-- `&file[..file.len() - 1]` where the final character is a one-byte
classify suffix: drop the final character. -/
def dropLastChar (s : String) : String := String.mk s.data.dropLast

/-- The per-entry body of the `filter_map` in `list_files`: propagate an
iteration error (`entry.ok()?`), apply the hidden-file and almost-all name
filters, read metadata (`entry.metadata().ok()?`), read the modification
time with `SystemTime::now()` fallback, and classify the display name. -/
def entryShort (env : Env) (show_hidden almost_all classify : Bool)
    (e : Option RawEntry) : Option (String × Metadata × Nat) := do
  let entry ← e
  let file_name := entry.name
  if !show_hidden && startsWithDot file_name then none
  else if almost_all && (file_name == "." || file_name == "..") then none
  else do
    let metadata ← entry.meta
    let modified_time := metadata.modified.getD env.now
    let display_name :=
      if classify then add_file_type_indicator file_name metadata else file_name
    some (display_name, metadata, modified_time)

/-- The filter/collect phase of `list_files` in `dir_utils.rs`. -/
def collectShort (env : Env) (show_hidden almost_all classify : Bool)
    (entries : List (Option RawEntry)) : List (String × Metadata × Nat) :=
  entries.filterMap (entryShort env show_hidden almost_all classify)

/-- The sort phase of `list_files`: skip when unsorted, else time-sort,
else size-sort, else name-sort, each with the `reverse`-swapped comparator
of the source. -/
def sortShort (sort_time sort_size reverse unsorted : Bool)
    (files : List (String × Metadata × Nat)) : List (String × Metadata × Nat) :=
  if unsorted then files
  else if sort_time then
    sortBy (fun a b =>
      if reverse then compare a.2.2 b.2.2 else compare b.2.2 a.2.2) files
  else if sort_size then
    sortBy (fun a b =>
      if reverse then compare a.2.1.len b.2.1.len else compare b.2.1.len a.2.1.len) files
  else
    sortBy (fun a b =>
      if reverse then cmpStr b.1 a.1 else cmpStr a.1 b.1) files

/-- `list_files` of `dir_utils.rs`, after a successful `read_dir`:
collect, sort, project the display names. -/
def list_files_core (env : Env)
    (show_hidden almost_all classify sort_time sort_size reverse unsorted : Bool)
    (entries : List (Option RawEntry)) : List String :=
  (sortShort sort_time sort_size reverse unsorted
    (collectShort env show_hidden almost_all classify entries)).map (fun f => f.1)

/-- `list_files` of `dir_utils.rs`.  `dir = none` models `fs::read_dir`
failing, on which the source panics via `.expect` — embedded as `none`. -/
def list_files (env : Env)
    (show_hidden almost_all classify sort_time sort_size reverse unsorted : Bool)
    (dir : Option (List (Option RawEntry))) : Option (List String) :=
  dir.map (list_files_core env show_hidden almost_all classify sort_time sort_size
    reverse unsorted)

/-- The per-entry body of the `filter_map` in `list_files_detailed`: the
same name filters, then `get_file_info` (whose metadata failure drops the
entry). -/
def entryDetailed (env : Env) (show_hidden almost_all human_readable : Bool)
    (e : Option RawEntry) : Option FileInfo := do
  let entry ← e
  let file_name := entry.name
  if !show_hidden && startsWithDot file_name then none
  else if almost_all && (file_name == "." || file_name == "..") then none
  else get_file_info env human_readable entry

/-- The filter/collect phase of `list_files_detailed` in `dir_utils.rs`. -/
def collectDetailed (env : Env) (show_hidden almost_all human_readable : Bool)
    (entries : List (Option RawEntry)) : List FileInfo :=
  entries.filterMap (entryDetailed env show_hidden almost_all human_readable)

/-- The sort phase of `list_files_detailed` (same flag priority and
comparators as the short form, over `FileInfo` fields). -/
def sortDetailed (sort_time sort_size reverse unsorted : Bool)
    (files : List FileInfo) : List FileInfo :=
  if unsorted then files
  else if sort_time then
    sortBy (fun a b =>
      if reverse then compare a.modified_time b.modified_time
      else compare b.modified_time a.modified_time) files
  else if sort_size then
    sortBy (fun a b =>
      if reverse then compare a.file_size b.file_size
      else compare b.file_size a.file_size) files
  else
    sortBy (fun a b =>
      if reverse then cmpStr b.name a.name else cmpStr a.name b.name) files

/-- `list_files_detailed` of `dir_utils.rs`, after a successful `read_dir`. -/
def list_files_detailed_core (env : Env)
    (show_hidden almost_all human_readable sort_time sort_size reverse unsorted : Bool)
    (entries : List (Option RawEntry)) : List FileInfo :=
  sortDetailed sort_time sort_size reverse unsorted
    (collectDetailed env show_hidden almost_all human_readable entries)

/-- `list_files_detailed` of `dir_utils.rs`; `dir = none` models the
`read_dir` failure on which the source panics via `.expect`. -/
def list_files_detailed (env : Env)
    (show_hidden almost_all human_readable sort_time sort_size reverse unsorted : Bool)
    (dir : Option (List (Option RawEntry))) : Option (List FileInfo) :=
  dir.map (list_files_detailed_core env show_hidden almost_all human_readable
    sort_time sort_size reverse unsorted)

/-- The short-form print loops of `list_directory` / `list_recursive` in
`main.rs`: one `println!` per name, or `print!("{}  ", name)` per name
followed by one `println!()`. -/
def renderShort (one_per_line : Bool) (files : List String) : String :=
  if one_per_line then files.foldl (fun acc file => acc ++ file ++ "\n") ""
  else files.foldl (fun acc file => acc ++ file ++ "  ") "" ++ "\n"

/-- A filesystem tree: the domain over which the walker of `main.rs` runs.
A node carries the metadata that `entry.metadata()` reports for it. -/
inductive FsNode where
  | file (meta : Metadata)
  | dir (meta : Metadata) (entries : List (String × FsNode))

/-- `Path::is_dir` on a resolved node. -/
def FsNode.isDir : FsNode → Bool
  | .dir _ _ => true
  | .file _ => false

/-- The metadata a directory enumeration reports for a child node. -/
def FsNode.metaOf : FsNode → Metadata
  | .file m => m
  | .dir m _ => m

/-- Resolve one path component among a directory's children. -/
def lookupChild : List (String × FsNode) → String → Option FsNode
  | [], _ => none
  | (n, c) :: rest, name => if n = name then some c else lookupChild rest name

/-- The raw entry sequence `fs::read_dir` yields for a directory node
(every entry read succeeds; errors are introduced separately where a
claim needs them). -/
def rawEntriesOf (entries : List (String × FsNode)) : List (Option RawEntry) :=
  entries.map fun e => some ⟨e.1, some e.2.metaOf⟩

/-- `fs::read_dir` on a node: fails on a non-directory. -/
def readDirNode : FsNode → Option (List (Option RawEntry))
  | .file _ => none
  | .dir _ es => some (rawEntriesOf es)

theorem sizeOf_lookupChild {es : List (String × FsNode)} {name : String}
    {c : FsNode} (h : lookupChild es name = some c) : sizeOf c < sizeOf es := by
  induction es with
  | nil => simp [lookupChild] at h
  | cons p rest ih =>
    obtain ⟨n, node⟩ := p
    simp only [lookupChild] at h
    split at h
    · cases h
      simp only [List.cons.sizeOf_spec, Prod.mk.sizeOf_spec]
      omega
    · have := ih h
      simp only [List.cons.sizeOf_spec]
      omega

mutual

/-- `list_recursive` of `main.rs`: print the `\n<path>:` header, render the
short-form listing, then walk the listed names in order, stripping the
classify suffix and recursing into every name that resolves to a directory.
`none` models the `read_dir` panic on a non-directory root. -/
def list_recursive (env : Env)
    (show_hidden almost_all classify sort_time sort_size reverse unsorted
      one_per_line : Bool) (path : String) (node : FsNode) : Option String :=
  match node with
  | .file _ => none
  | .dir _ es =>
    let files := list_files_core env show_hidden almost_all classify sort_time
      sort_size reverse unsorted (rawEntriesOf es)
    some (("\n" ++ path ++ ":\n") ++ renderShort one_per_line files ++
      recurseChildren env show_hidden almost_all classify sort_time sort_size
        reverse unsorted one_per_line path es files)
  termination_by (sizeOf node, 0)

/-- One iteration of the subdirectory loop of `list_recursive`: strip a
trailing `/` or `*` from the display name when classify is on, resolve the
cleaned name against the directory, and recurse when it is a directory
(the empty string when it is not, as nothing is printed). -/
def recurseStep (env : Env)
    (show_hidden almost_all classify sort_time sort_size reverse unsorted
      one_per_line : Bool) (path : String) (es : List (String × FsNode))
    (file : String) : String :=
  let clean_filename :=
    if classify && (endsWithChar file '/' || endsWithChar file '*') then
      dropLastChar file
    else file
  match h : lookupChild es clean_filename with
  | some child =>
    if child.isDir then
      (list_recursive env show_hidden almost_all classify sort_time sort_size
        reverse unsorted one_per_line (path ++ "/" ++ clean_filename)
        child).getD ""
    else ""
  | none => ""
  termination_by (sizeOf es, 1)
  decreasing_by
  exact Prod.Lex.left _ _ (sizeOf_lookupChild h)

/-- The subdirectory loop at the end of `list_recursive`: `recurseStep` on
each listed display name in order. -/
def recurseChildren (env : Env)
    (show_hidden almost_all classify sort_time sort_size reverse unsorted
      one_per_line : Bool) (path : String) (es : List (String × FsNode))
    (files : List String) : String :=
  match files with
  | [] => ""
  | file :: rest =>
    recurseStep env show_hidden almost_all classify sort_time sort_size
      reverse unsorted one_per_line path es file ++
    recurseChildren env show_hidden almost_all classify sort_time sort_size
      reverse unsorted one_per_line path es rest
  termination_by (sizeOf es, files.length + 2)
  decreasing_by
  · exact Prod.Lex.right _ (by omega)
  · exact Prod.Lex.right _ (by simp only [List.length_cons]; omega)

end

/-- The command-line flags of `args.rs`. -/
structure Args where
  all : Bool
  almost_all : Bool
  long : Bool
  recursive : Bool
  human_readable : Bool
  classify : Bool
  one_per_line : Bool
  sort_time : Bool
  sort_size : Bool
  reverse : Bool
  unsorted : Bool
deriving DecidableEq

/-- What a `list_directory` dispatch produces: the row list handed to the
long-format table, or printed text. -/
inductive Output where
  | longTable (rows : List FileInfo)
  | text (s : String)
deriving DecidableEq

/-- `list_directory` of `main.rs`: long form first, else recursive, else
short; `show_hidden` is `args.all || args.almost_all` in each branch. -/
def list_directory (env : Env) (path : String) (root : FsNode) (args : Args) :
    Option Output :=
  if args.long then
    (list_files_detailed env (args.all || args.almost_all) args.almost_all
      args.human_readable args.sort_time args.sort_size args.reverse
      args.unsorted (readDirNode root)).map Output.longTable
  else if args.recursive then
    (list_recursive env (args.all || args.almost_all) args.almost_all
      args.classify args.sort_time args.sort_size args.reverse args.unsorted
      args.one_per_line path root).map Output.text
  else
    (list_files env (args.all || args.almost_all) args.almost_all args.classify
      args.sort_time args.sort_size args.reverse args.unsorted
      (readDirNode root)).map
      (fun files => Output.text (renderShort args.one_per_line files))

/-- A fixed host environment for concrete instantiations: empty account
database, trivial time formatter, clock at 0. -/
def envW : Env := ⟨fun _ => none, fun _ => none, fun _ => "", 0⟩

/-- Concrete metadata of a regular file with mode `0o644`, 7 bytes,
modification time 5. -/
def mW : Metadata := ⟨.regular, 0o644, 7, 1, 0, 0, some 5⟩

/-- The `FileInfo` that `get_file_info envW false ⟨".x", some mW⟩` yields. -/
def fiW : FileInfo :=
  { permissions := "-rw-r--r--", links := "1", owner := "0", group := "0",
    size := "7", modified := "", name := ".x", is_dir := false,
    file_size := 7, modified_time := 5 }

/-- The spec's wording of the permission string: type character, then
three 3-character groups taken from the low 9 bits of the mode, each group
mapping its read, write and execute bits to `r`/`-`, `w`/`-`, `x`/`-` in
that fixed order. -/
def specPermString (is_dir : Bool) (mode : Nat) : String :=
  (if is_dir then "d" else "-") ++
    ((if mode.testBit 8 then "r" else "-") ++ (if mode.testBit 7 then "w" else "-") ++
      (if mode.testBit 6 then "x" else "-")) ++
    ((if mode.testBit 5 then "r" else "-") ++ (if mode.testBit 4 then "w" else "-") ++
      (if mode.testBit 3 then "x" else "-")) ++
    ((if mode.testBit 2 then "r" else "-") ++ (if mode.testBit 1 then "w" else "-") ++
      (if mode.testBit 0 then "x" else "-"))

/-- Concrete tree `root/{a.txt, sub/{b.txt}}`: the regular file `a.txt`. -/
def fileA : FsNode := .file ⟨.regular, 0o644, 10, 1, 0, 0, some 1⟩

/-- Concrete tree: the regular file `sub/b.txt`. -/
def fileB : FsNode := .file ⟨.regular, 0o644, 20, 1, 0, 0, some 3⟩

/-- Concrete tree: the subdirectory `sub` containing `b.txt`. -/
def subW : FsNode := .dir ⟨.dir, 0o755, 4096, 2, 0, 0, some 2⟩ [("b.txt", fileB)]

/-- Concrete tree: the entries of the root directory. -/
def rootEntriesW : List (String × FsNode) := [("a.txt", fileA), ("sub", subW)]

/-- Concrete tree: the root directory node. -/
def treeW : FsNode := .dir ⟨.dir, 0o755, 4096, 2, 0, 0, some 0⟩ rootEntriesW

/-- Joining with a separator (`String.intercalate` written out): the
reading of "names on one line separated by two spaces". -/
def joinSep (sep : String) : List String → String
  | [] => ""
  | [x] => x
  | x :: xs => x ++ sep ++ joinSep sep xs

/-- Concatenation of a rendered piece per name. -/
def concatMap (g : String → String) : List String → String
  | [] => ""
  | x :: xs => g x ++ concatMap g xs

/-- The claim's wording of the packed short-form rendering: all names on
one line separated by two spaces, followed by a trailing blank line. -/
def renderShortSpec (files : List String) : String :=
  joinSep "  " files ++ "\n\n"

/-- Concrete metadata of a non-regular, non-directory entry (e.g. a
symlink) whose mode `0o777` has execute bits set. -/
def mExecW : Metadata := ⟨.other, 0o777, 0, 1, 0, 0, some 0⟩

/-- Concrete metadata of a directory with mode `0o755`. -/
def mDirW : Metadata := ⟨.dir, 0o755, 4096, 2, 0, 0, some 2⟩

theorem sortInsert_perm (cmp : α → α → Ordering) (x : α) (l : List α) :
    List.Perm (sortInsert cmp x l) (x :: l) := by
  induction l with
  | nil => exact List.Perm.refl _
  | cons y ys ih =>
    simp only [sortInsert]
    split
    · exact (ih.cons y).trans (List.Perm.swap x y ys)
    · exact List.Perm.refl _

theorem sortBy_perm (cmp : α → α → Ordering) (l : List α) :
    List.Perm (sortBy cmp l) l := by
  induction l with
  | nil => exact List.Perm.refl _
  | cons x xs ih => exact (sortInsert_perm cmp x _).trans (ih.cons x)

theorem pairwise_sortInsert (cmp : α → α → Ordering)
    (total : ∀ a b, cmp a b = Ordering.gt → cmp b a ≠ Ordering.gt)
    (htrans : ∀ a b c,
      cmp a b ≠ Ordering.gt → cmp b c ≠ Ordering.gt → cmp a c ≠ Ordering.gt)
    (x : α) (l : List α)
    (hl : List.Pairwise (fun a b => cmp a b ≠ Ordering.gt) l) :
    List.Pairwise (fun a b => cmp a b ≠ Ordering.gt) (sortInsert cmp x l) := by
  induction l with
  | nil => simp [sortInsert]
  | cons y ys ih =>
    rcases List.pairwise_cons.mp hl with ⟨hy, hys⟩
    simp only [sortInsert]
    split
    case isTrue hgt =>
      refine List.pairwise_cons.mpr ⟨?_, ih hys⟩
      intro z hz
      rcases List.mem_cons.mp ((sortInsert_perm cmp x ys).mem_iff.mp hz) with hzx | hzys
      · exact hzx ▸ total x y hgt
      · exact hy z hzys
    case isFalse hle =>
      refine List.pairwise_cons.mpr ⟨?_, hl⟩
      intro z hz
      rcases List.mem_cons.mp hz with hzy | hzys
      · exact hzy ▸ hle
      · exact htrans x y z hle (hy z hzys)

theorem pairwise_sortBy (cmp : α → α → Ordering)
    (total : ∀ a b, cmp a b = Ordering.gt → cmp b a ≠ Ordering.gt)
    (htrans : ∀ a b c,
      cmp a b ≠ Ordering.gt → cmp b c ≠ Ordering.gt → cmp a c ≠ Ordering.gt)
    (l : List α) :
    List.Pairwise (fun a b => cmp a b ≠ Ordering.gt) (sortBy cmp l) := by
  induction l with
  | nil => simp [sortBy]
  | cons x xs ih => exact pairwise_sortInsert cmp total htrans x _ ih

theorem natCmp_asymm {x y : Nat} (h : compare x y = Ordering.gt) :
    compare y x ≠ Ordering.gt := by
  intro hc
  rw [Nat.compare_eq_gt] at h hc
  omega

theorem natCmp_trans {x y z : Nat} (h1 : compare x y ≠ Ordering.gt)
    (h2 : compare y z ≠ Ordering.gt) : compare x z ≠ Ordering.gt := by
  intro hc
  rw [Nat.compare_eq_gt] at hc
  rw [Ne, Nat.compare_eq_gt] at h1 h2
  omega

/-- The strict character order underlying lexicographic string comparison. -/
def charLt (a b : Char) : Prop := a.toNat < b.toNat

theorem cmpCharList_gt_iff : ∀ as bs : List Char,
    cmpCharList as bs = Ordering.gt ↔ List.Lex charLt bs as
  | [], [] => by simp [cmpCharList]
  | [], _ :: _ => by simp [cmpCharList]
  | _ :: _, [] => by
    simp only [cmpCharList]
    exact iff_of_true trivial List.Lex.nil
  | a :: as, b :: bs => by
    rcases Nat.lt_trichotomy a.toNat b.toNat with h | h | h
    · have h1 : compare a.toNat b.toNat = Ordering.lt := Nat.compare_eq_lt.mpr h
      simp only [cmpCharList, h1]
      constructor
      · intro hc
        exact absurd hc (by decide)
      · intro hlex
        cases hlex with
        | rel hr => exact absurd (show b.toNat < a.toNat from hr) (by omega)
        | cons _ => exact absurd h (by omega)
    · have hab : a = b := Char.eq_of_val_eq (UInt32.ext h)
      subst hab
      have h1 : compare a.toNat a.toNat = Ordering.eq := Nat.compare_eq_eq.mpr rfl
      simp only [cmpCharList, h1]
      rw [cmpCharList_gt_iff as bs]
      constructor
      · intro hlex
        exact List.Lex.cons hlex
      · intro hlex
        cases hlex with
        | rel hr => exact absurd (show a.toNat < a.toNat from hr) (by omega)
        | cons htail => exact htail
    · have h1 : compare a.toNat b.toNat = Ordering.gt := Nat.compare_eq_gt.mpr h
      simp only [cmpCharList, h1]
      exact iff_of_true trivial (List.Lex.rel h)

theorem cmpCharList_gt_asymm : ∀ as bs : List Char,
    cmpCharList as bs = Ordering.gt → cmpCharList bs as ≠ Ordering.gt
  | [], [] => by simp [cmpCharList]
  | [], _ :: _ => by simp [cmpCharList]
  | _ :: _, [] => by simp [cmpCharList]
  | a :: as, b :: bs => by
    rcases Nat.lt_trichotomy a.toNat b.toNat with h | h | h
    · have h1 : compare a.toNat b.toNat = Ordering.lt := Nat.compare_eq_lt.mpr h
      simp [cmpCharList, h1]
    · have h1 : compare a.toNat b.toNat = Ordering.eq := Nat.compare_eq_eq.mpr h
      have h2 : compare b.toNat a.toNat = Ordering.eq := Nat.compare_eq_eq.mpr h.symm
      simp only [cmpCharList, h1, h2]
      exact cmpCharList_gt_asymm as bs
    · have h2 : compare b.toNat a.toNat = Ordering.lt := Nat.compare_eq_lt.mpr h
      simp [cmpCharList, h2]

theorem cmpCharList_le_trans : ∀ as bs cs : List Char,
    cmpCharList as bs ≠ Ordering.gt → cmpCharList bs cs ≠ Ordering.gt →
      cmpCharList as cs ≠ Ordering.gt
  | [], bs, cs => by
    intro _ _
    cases cs <;> simp [cmpCharList]
  | _ :: _, [], _ => fun h1 _ => absurd rfl h1
  | _ :: _, _ :: _, [] => fun _ h2 => absurd rfl h2
  | a :: as, b :: bs, c :: cs => by
    intro h1 h2
    rcases Nat.lt_trichotomy a.toNat b.toNat with hab | hab | hab
    · rcases Nat.lt_trichotomy b.toNat c.toNat with hbc | hbc | hbc
      · have h3 : compare a.toNat c.toNat = Ordering.lt :=
          Nat.compare_eq_lt.mpr (by omega)
        simp [cmpCharList, h3]
      · have h3 : compare a.toNat c.toNat = Ordering.lt :=
          Nat.compare_eq_lt.mpr (by omega)
        simp [cmpCharList, h3]
      · have h2' : compare b.toNat c.toNat = Ordering.gt := Nat.compare_eq_gt.mpr hbc
        simp [cmpCharList, h2'] at h2
    · rcases Nat.lt_trichotomy b.toNat c.toNat with hbc | hbc | hbc
      · have h3 : compare a.toNat c.toNat = Ordering.lt :=
          Nat.compare_eq_lt.mpr (by omega)
        simp [cmpCharList, h3]
      · have h1' : compare a.toNat b.toNat = Ordering.eq := Nat.compare_eq_eq.mpr hab
        have h2' : compare b.toNat c.toNat = Ordering.eq := Nat.compare_eq_eq.mpr hbc
        have h3 : compare a.toNat c.toNat = Ordering.eq :=
          Nat.compare_eq_eq.mpr (by omega)
        simp only [cmpCharList, h1'] at h1
        simp only [cmpCharList, h2'] at h2
        simp only [cmpCharList, h3]
        exact cmpCharList_le_trans as bs cs h1 h2
      · have h2' : compare b.toNat c.toNat = Ordering.gt := Nat.compare_eq_gt.mpr hbc
        simp [cmpCharList, h2'] at h2
    · have h1' : compare a.toNat b.toNat = Ordering.gt := Nat.compare_eq_gt.mpr hab
      simp [cmpCharList, h1'] at h1

theorem cmpStr_gt_iff {a b : String} :
    cmpStr a b = Ordering.gt ↔ List.Lex charLt b.data a.data :=
  cmpCharList_gt_iff a.data b.data

theorem cmpStr_asymm {a b : String} (h : cmpStr a b = Ordering.gt) :
    cmpStr b a ≠ Ordering.gt :=
  cmpCharList_gt_asymm a.data b.data h

theorem cmpStr_trans {a b c : String} (h1 : cmpStr a b ≠ Ordering.gt)
    (h2 : cmpStr b c ≠ Ordering.gt) : cmpStr a c ≠ Ordering.gt :=
  cmpCharList_le_trans a.data b.data c.data h1 h2

theorem sortShort_perm (sort_time sort_size reverse unsorted : Bool)
    (files : List (String × Metadata × Nat)) :
    List.Perm (sortShort sort_time sort_size reverse unsorted files) files := by
  unfold sortShort
  split
  · exact List.Perm.refl _
  · split
    · exact sortBy_perm _ _
    · split
      · exact sortBy_perm _ _
      · exact sortBy_perm _ _

theorem sortDetailed_perm (sort_time sort_size reverse unsorted : Bool)
    (files : List FileInfo) :
    List.Perm (sortDetailed sort_time sort_size reverse unsorted files) files := by
  unfold sortDetailed
  split
  · exact List.Perm.refl _
  · split
    · exact sortBy_perm _ _
    · split
      · exact sortBy_perm _ _
      · exact sortBy_perm _ _

theorem entryDetailed_some (env : Env) (sh aa hr : Bool) (nm : String)
    (mo : Option Metadata) :
    entryDetailed env sh aa hr (some ⟨nm, mo⟩) =
      if !sh && startsWithDot nm then none
      else if aa && (nm == "." || nm == "..") then none
      else get_file_info env hr ⟨nm, mo⟩ := rfl

theorem entryShort_some (env : Env) (sh aa cl : Bool) (nm : String)
    (mo : Option Metadata) :
    entryShort env sh aa cl (some ⟨nm, mo⟩) =
      if !sh && startsWithDot nm then none
      else if aa && (nm == "." || nm == "..") then none
      else
        mo.bind fun metadata =>
          some (if cl then add_file_type_indicator nm metadata else nm, metadata,
            metadata.modified.getD env.now) := by
  cases mo <;> rfl

theorem get_file_info_none (env : Env) (hr : Bool) (nm : String) :
    get_file_info env hr ⟨nm, none⟩ = none := rfl

theorem get_file_info_eq (env : Env) (hr : Bool) (nm : String) (m : Metadata) :
    get_file_info env hr ⟨nm, some m⟩ = some
      { permissions := (if m.isDir then "d" else "-") ++ format_mode m.mode
        links := toString m.nlink
        owner := (env.userDb m.uid).getD (toString m.uid)
        group := (env.groupDb m.gid).getD (toString m.gid)
        size :=
          if m.isDir then "-"
          else if hr then format_size m.len
          else toString m.len
        modified := env.fmtTime (m.modified.getD env.now)
        name := nm
        is_dir := m.isDir
        file_size := m.len
        modified_time := m.modified.getD env.now } := rfl

theorem get_file_info_name {env : Env} {hr : Bool} {e : RawEntry} {fi : FileInfo}
    (h : get_file_info env hr e = some fi) : fi.name = e.name := by
  rcases e with ⟨nm, mo⟩
  cases mo with
  | none => exact absurd h (by rw [get_file_info_none]; exact Option.noConfusion)
  | some m =>
    rw [get_file_info_eq] at h
    rw [← Option.some.inj h]

theorem entryDetailed_name_cond {env : Env} {sh aa hr : Bool}
    {oe : Option RawEntry} {fi : FileInfo}
    (h : entryDetailed env sh aa hr oe = some fi) :
    (!sh && startsWithDot fi.name) = false ∧
      (aa && (fi.name == "." || fi.name == "..")) = false := by
  rcases oe with _ | ⟨nm, mo⟩
  · exact absurd h (by simp [entryDetailed])
  · rw [entryDetailed_some] at h
    by_cases h1 : (!sh && startsWithDot nm) = true
    · rw [if_pos h1] at h
      exact absurd h (by simp)
    · rw [if_neg h1] at h
      by_cases h2 : (aa && (nm == "." || nm == "..")) = true
      · rw [if_pos h2] at h
        exact absurd h (by simp)
      · rw [if_neg h2] at h
        have hn : fi.name = nm := get_file_info_name h
        rw [hn]
        exact ⟨Bool.eq_false_iff.mpr h1, Bool.eq_false_iff.mpr h2⟩

theorem entryShort_name_cond {env : Env} {sh aa : Bool} {oe : Option RawEntry}
    {t : String × Metadata × Nat} (h : entryShort env sh aa false oe = some t) :
    (!sh && startsWithDot t.1) = false ∧
      (aa && (t.1 == "." || t.1 == "..")) = false := by
  rcases oe with _ | ⟨nm, mo⟩
  · exact absurd h (by simp [entryShort])
  · rw [entryShort_some] at h
    by_cases h1 : (!sh && startsWithDot nm) = true
    · rw [if_pos h1] at h
      exact absurd h (by simp)
    · rw [if_neg h1] at h
      by_cases h2 : (aa && (nm == "." || nm == "..")) = true
      · rw [if_pos h2] at h
        exact absurd h (by simp)
      · rw [if_neg h2] at h
        cases mo with
        | none => exact absurd h (by simp)
        | some m =>
          have ht : t.1 = nm := by
            have hinj := Option.some.inj (by simpa using h.symm)
            rw [hinj]
          rw [ht]
          exact ⟨Bool.eq_false_iff.mpr h1, Bool.eq_false_iff.mpr h2⟩

theorem filterCond_iff (sh aa : Bool) (nm : String) :
    ((!sh && startsWithDot nm) = false ∧
        (aa && (nm == "." || nm == "..")) = false) ↔
      ((startsWithDot nm = true → sh = true) ∧
        (aa = true → ¬(nm = "." ∨ nm = ".."))) := by
  cases sh <;> cases aa <;>
    cases hs : startsWithDot nm <;>
      simp [hs, beq_iff_eq, not_or]

theorem entryShort_keep (env : Env) (sh aa : Bool) (nm : String) (m : Metadata)
    (h1 : (!sh && startsWithDot nm) = false)
    (h2 : (aa && (nm == "." || nm == "..")) = false) :
    entryShort env sh aa false (some ⟨nm, some m⟩) =
      some (nm, m, m.modified.getD env.now) := by
  rw [entryShort_some, if_neg (by simp [h1]), if_neg (by simp [h2])]
  rfl

theorem entryDetailed_keep (env : Env) (sh aa hr : Bool) (nm : String)
    (mo : Option Metadata)
    (h1 : (!sh && startsWithDot nm) = false)
    (h2 : (aa && (nm == "." || nm == "..")) = false) :
    entryDetailed env sh aa hr (some ⟨nm, mo⟩) =
      get_file_info env hr ⟨nm, mo⟩ := by
  rw [entryDetailed_some, if_neg (by simp [h1]), if_neg (by simp [h2])]

theorem mem_collectDetailed {env : Env} {sh aa hr : Bool}
    {es : List (Option RawEntry)} {fi : FileInfo} :
    fi ∈ collectDetailed env sh aa hr es ↔
      ∃ oe ∈ es, entryDetailed env sh aa hr oe = some fi := by
  simp [collectDetailed, List.mem_filterMap]

theorem mem_collectShort {env : Env} {sh aa cl : Bool}
    {es : List (Option RawEntry)} {t : String × Metadata × Nat} :
    t ∈ collectShort env sh aa cl es ↔
      ∃ oe ∈ es, entryShort env sh aa cl oe = some t := by
  simp [collectShort, List.mem_filterMap]

/-- **C1.** For every directory listing (short or long form), an entry whose
name starts with `.` is included in the output iff the hidden-files flag is
set, and when the almost-all flag is set the entries named exactly `.` and
`..` are never included; the filter is independent of (applied before) the
sorting flags, which are universally quantified here. -/
theorem hidden_and_almost_all_filter
    (env : Env) (sh aa hr st ss rv us : Bool)
    (es₁ es₂ : List (Option RawEntry)) (nm : String) (m : Metadata) :
    (nm ∈ list_files_core env sh aa false st ss rv us
        (es₁ ++ some ⟨nm, some m⟩ :: es₂) ↔
      ((startsWithDot nm = true → sh = true) ∧
        (aa = true → ¬(nm = "." ∨ nm = "..")))) ∧
    (∀ fi, get_file_info env hr ⟨nm, some m⟩ = some fi →
      (fi ∈ list_files_detailed_core env sh aa hr st ss rv us
          (es₁ ++ some ⟨nm, some m⟩ :: es₂) ↔
        ((startsWithDot nm = true → sh = true) ∧
          (aa = true → ¬(nm = "." ∨ nm = ".."))))) := by
  constructor
  · simp only [list_files_core]
    constructor
    · intro hmem
      rcases List.mem_map.mp hmem with ⟨t, htmem, ht1⟩
      have htc : t ∈ collectShort env sh aa false (es₁ ++ some ⟨nm, some m⟩ :: es₂) :=
        (sortShort_perm st ss rv us _).mem_iff.mp htmem
      rcases mem_collectShort.mp htc with ⟨oe, _, hoe⟩
      have hc := entryShort_name_cond hoe
      rw [ht1] at hc
      exact (filterCond_iff sh aa nm).mp hc
    · intro hcond
      rcases (filterCond_iff sh aa nm).mpr hcond with ⟨h1, h2⟩
      apply List.mem_map.mpr
      refine ⟨(nm, m, m.modified.getD env.now), ?_, rfl⟩
      apply (sortShort_perm st ss rv us _).mem_iff.mpr
      apply mem_collectShort.mpr
      exact ⟨some ⟨nm, some m⟩, by simp, entryShort_keep env sh aa nm m h1 h2⟩
  · intro fi hfi
    simp only [list_files_detailed_core]
    constructor
    · intro hmem
      have hc : fi ∈ collectDetailed env sh aa hr (es₁ ++ some ⟨nm, some m⟩ :: es₂) :=
        (sortDetailed_perm st ss rv us _).mem_iff.mp hmem
      rcases mem_collectDetailed.mp hc with ⟨oe, _, hoe⟩
      have hcnd := entryDetailed_name_cond hoe
      have hn : fi.name = nm := get_file_info_name hfi
      rw [hn] at hcnd
      exact (filterCond_iff sh aa nm).mp hcnd
    · intro hcond
      rcases (filterCond_iff sh aa nm).mpr hcond with ⟨h1, h2⟩
      apply (sortDetailed_perm st ss rv us _).mem_iff.mpr
      apply mem_collectDetailed.mpr
      exact ⟨some ⟨nm, some m⟩, by simp,
        (entryDetailed_keep env sh aa hr nm (some m) h1 h2).trans hfi⟩

/-- Witness for C1: with the hidden flag set, the dot-file `.x` appears in
both the short and the long listing of a one-entry directory. -/
theorem hidden_and_almost_all_filter_witness :
    (".x" ∈ list_files_core envW true false false false false false false
        ([] ++ some ⟨".x", some mW⟩ :: [])) ∧
    fiW ∈ list_files_detailed_core envW true false false false false false false
        ([] ++ some ⟨".x", some mW⟩ :: []) :=
  ⟨((hidden_and_almost_all_filter envW true false false false false false false
      [] [] ".x" mW).1).mpr ⟨fun _ => rfl, fun h => Bool.noConfusion h⟩,
    ((hidden_and_almost_all_filter envW true false false false false false false
      [] [] ".x" mW).2 fiW rfl).mpr ⟨fun _ => rfl, fun h => Bool.noConfusion h⟩⟩

theorem entryShort_metaNone (env : Env) (sh aa cl : Bool) (nm : String) :
    entryShort env sh aa cl (some ⟨nm, none⟩) = none := by
  rw [entryShort_some]
  split
  · rfl
  · split
    · rfl
    · rfl

theorem entryDetailed_metaNone (env : Env) (sh aa hr : Bool) (nm : String) :
    entryDetailed env sh aa hr (some ⟨nm, none⟩) = none := by
  rw [entryDetailed_some]
  split
  · rfl
  · split
    · rfl
    · exact get_file_info_none env hr nm

/-- **C3.** Two-tier error policy for every listing call: a failure to read
one entry's metadata (or to yield the entry at all) silently drops exactly
that entry — the rest of the listing is unchanged, with no partial or error
record — while a failure to open the directory itself (`read_dir`) aborts
the whole call (`none`) instead of returning any list. -/
theorem two_tier_error_policy
    (env : Env) (sh aa cl hr st ss rv us : Bool) (nm nm' : String)
    (es₁ es₂ : List (Option RawEntry)) :
    (list_files env sh aa cl st ss rv us none = none) ∧
    (list_files_detailed env sh aa hr st ss rv us none = none) ∧
    (list_files_core env sh aa cl st ss rv us (es₁ ++ some ⟨nm, none⟩ :: es₂) =
      list_files_core env sh aa cl st ss rv us (es₁ ++ es₂)) ∧
    (list_files_detailed_core env sh aa hr st ss rv us
        (es₁ ++ some ⟨nm', none⟩ :: es₂) =
      list_files_detailed_core env sh aa hr st ss rv us (es₁ ++ es₂)) ∧
    (list_files_core env sh aa cl st ss rv us (es₁ ++ none :: es₂) =
      list_files_core env sh aa cl st ss rv us (es₁ ++ es₂)) ∧
    (list_files_detailed_core env sh aa hr st ss rv us (es₁ ++ none :: es₂) =
      list_files_detailed_core env sh aa hr st ss rv us (es₁ ++ es₂)) := by
  refine ⟨rfl, rfl, ?_, ?_, ?_, ?_⟩
  · simp [list_files_core, collectShort, List.filterMap_append,
      List.filterMap_cons, entryShort_metaNone]
  · simp [list_files_detailed_core, collectDetailed, List.filterMap_append,
      List.filterMap_cons, entryDetailed_metaNone]
  · simp [list_files_core, collectShort, List.filterMap_append,
      List.filterMap_cons, entryShort]
  · simp [list_files_detailed_core, collectDetailed, List.filterMap_append,
      List.filterMap_cons, entryDetailed]

theorem and_pow_two_ne_zero (b i : Nat) : (b &&& 2 ^ i ≠ 0) ↔ b.testBit i = true := by
  rw [Nat.and_two_pow]
  cases h : b.testBit i <;> simp [h]

theorem and4_ne (b : Nat) : (b &&& 4 ≠ 0) ↔ b.testBit 2 = true := by
  have h := and_pow_two_ne_zero b 2
  rw [(by norm_num : (2 : Nat) ^ 2 = 4)] at h
  exact h

theorem and2_ne (b : Nat) : (b &&& 2 ≠ 0) ↔ b.testBit 1 = true := by
  have h := and_pow_two_ne_zero b 1
  rw [(by norm_num : (2 : Nat) ^ 1 = 2)] at h
  exact h

theorem and1_ne (b : Nat) : (b &&& 1 ≠ 0) ↔ b.testBit 0 = true := by
  have h := and_pow_two_ne_zero b 0
  rw [pow_zero] at h
  exact h

theorem format_rwx_eq (b : Nat) : format_rwx b =
    (if b.testBit 2 then "r" else "-") ++ (if b.testBit 1 then "w" else "-") ++
      (if b.testBit 0 then "x" else "-") := by
  have c4 : (if b &&& 4 ≠ 0 then "r" else "-") = (if b.testBit 2 then "r" else "-") :=
    if_congr (and4_ne b) rfl rfl
  have c2 : (if b &&& 2 ≠ 0 then "w" else "-") = (if b.testBit 1 then "w" else "-") :=
    if_congr (and2_ne b) rfl rfl
  have c1 : (if b &&& 1 ≠ 0 then "x" else "-") = (if b.testBit 0 then "x" else "-") :=
    if_congr (and1_ne b) rfl rfl
  simp only [format_rwx]
  rw [c4, c2, c1]

theorem masked_testBit (mode s i : Nat) (hi : i < 3) :
    ((mode >>> s) &&& 7).testBit i = mode.testBit (s + i) := by
  rw [Nat.testBit_and, Nat.testBit_shiftRight]
  have h7 : Nat.testBit 7 i = true := by
    interval_cases i <;> decide
  rw [h7, Bool.and_true]

theorem perm_string_eq (is_dir : Bool) (mode : Nat) :
    ((if is_dir then "d" else "-") ++ format_mode mode) =
      specPermString is_dir mode := by
  have hlow : ∀ i, i < 3 → (mode &&& 7).testBit i = mode.testBit i := by
    intro i hi
    have h := masked_testBit mode 0 i hi
    simpa using h
  simp only [format_mode, specPermString]
  rw [format_rwx_eq, format_rwx_eq, format_rwx_eq]
  rw [masked_testBit mode 6 2 (by omega), masked_testBit mode 6 1 (by omega),
    masked_testBit mode 6 0 (by omega), masked_testBit mode 3 2 (by omega),
    masked_testBit mode 3 1 (by omega), masked_testBit mode 3 0 (by omega),
    hlow 2 (by omega), hlow 1 (by omega), hlow 0 (by omega)]
  simp [String.append_assoc]

/-- **C4.** For every metadata record, the rendered permissions string is
`d` or `-` according to directoryness, followed by three 3-character groups
read off the low 9 bits of the mode, each mapping its read/write/execute
bits to `r`/`-`, `w`/`-`, `x`/`-` in that order; in particular a regular
file of mode `0o755` renders `-rwxr-xr-x` and one of mode `0o644` renders
`-rw-r--r--`. -/
theorem permissions_rendering :
    (∀ (env : Env) (hr : Bool) (nm : String) (m : Metadata),
      (get_file_info env hr ⟨nm, some m⟩).map FileInfo.permissions =
        some (specPermString m.isDir m.mode)) ∧
    (∀ (is_dir : Bool) (mode : Nat),
      specPermString is_dir mode = specPermString is_dir (mode % 512)) ∧
    ((get_file_info envW false
        ⟨"f", some ⟨.regular, 0o755, 0, 1, 0, 0, some 0⟩⟩).map
      FileInfo.permissions = some "-rwxr-xr-x") ∧
    ((get_file_info envW false
        ⟨"f", some ⟨.regular, 0o644, 0, 1, 0, 0, some 0⟩⟩).map
      FileInfo.permissions = some "-rw-r--r--") := by
  refine ⟨?_, ?_, by decide, by decide⟩
  · intro env hr nm m
    rw [get_file_info_eq]
    simp only [Option.map_some']
    exact congrArg some (perm_string_eq m.isDir m.mode)
  · intro is_dir mode
    have hmp : ∀ i, i < 9 → (mode % 512).testBit i = mode.testBit i := by
      intro i hi
      rw [(by norm_num : (512 : Nat) = 2 ^ 9), Nat.testBit_mod_two_pow]
      simp [hi]
    simp only [specPermString]
    rw [hmp 8 (by omega), hmp 7 (by omega), hmp 6 (by omega), hmp 5 (by omega),
      hmp 4 (by omega), hmp 3 (by omega), hmp 2 (by omega), hmp 1 (by omega),
      hmp 0 (by omega)]

/-- **C6.** In long form, a directory's size always renders as `-`
regardless of its byte size; a non-directory (regular or other) renders the
raw decimal byte count when the human-readable flag is off and the
binary-unit string when it is on; in particular a 2048-byte file renders
`2 KiB` with the flag on and `2048` with it off. -/
theorem size_rendering :
    (∀ (env : Env) (hr : Bool) (nm : String) (mode len nlink uid gid : Nat)
        (mo : Option Nat),
      (get_file_info env hr
          ⟨nm, some ⟨.dir, mode, len, nlink, uid, gid, mo⟩⟩).map
        FileInfo.size = some "-") ∧
    (∀ (env : Env) (nm : String) (mode len nlink uid gid : Nat)
        (mo : Option Nat),
      (get_file_info env false
          ⟨nm, some ⟨.regular, mode, len, nlink, uid, gid, mo⟩⟩).map
        FileInfo.size = some (toString len)) ∧
    (∀ (env : Env) (nm : String) (mode len nlink uid gid : Nat)
        (mo : Option Nat),
      (get_file_info env true
          ⟨nm, some ⟨.regular, mode, len, nlink, uid, gid, mo⟩⟩).map
        FileInfo.size = some (format_size len)) ∧
    (∀ (env : Env) (nm : String) (mode len nlink uid gid : Nat)
        (mo : Option Nat),
      (get_file_info env false
          ⟨nm, some ⟨.other, mode, len, nlink, uid, gid, mo⟩⟩).map
        FileInfo.size = some (toString len)) ∧
    (∀ (env : Env) (nm : String) (mode len nlink uid gid : Nat)
        (mo : Option Nat),
      (get_file_info env true
          ⟨nm, some ⟨.other, mode, len, nlink, uid, gid, mo⟩⟩).map
        FileInfo.size = some (format_size len)) ∧
    (format_size 2048 = "2 KiB") ∧
    ((get_file_info envW true
        ⟨"f", some ⟨.regular, 0o644, 2048, 1, 0, 0, some 0⟩⟩).map
      FileInfo.size = some "2 KiB") ∧
    ((get_file_info envW false
        ⟨"f", some ⟨.regular, 0o644, 2048, 1, 0, 0, some 0⟩⟩).map
      FileInfo.size = some "2048") :=
  ⟨fun _ _ _ _ _ _ _ _ _ => rfl, fun _ _ _ _ _ _ _ _ => rfl,
    fun _ _ _ _ _ _ _ _ => rfl, fun _ _ _ _ _ _ _ _ => rfl,
    fun _ _ _ _ _ _ _ _ => rfl, by decide, by decide, by decide⟩

theorem list_recursive_dir (env : Env)
    (sh aa cl st ss rv us opl : Bool) (path : String) (m : Metadata)
    (es : List (String × FsNode)) :
    list_recursive env sh aa cl st ss rv us opl path (.dir m es) =
      some (("\n" ++ path ++ ":\n") ++
        renderShort opl (list_files_core env sh aa cl st ss rv us (rawEntriesOf es)) ++
        recurseChildren env sh aa cl st ss rv us opl path es
          (list_files_core env sh aa cl st ss rv us (rawEntriesOf es))) := by
  simp only [list_recursive]

theorem recurseChildren_nil (env : Env) (sh aa cl st ss rv us opl : Bool)
    (path : String) (es : List (String × FsNode)) :
    recurseChildren env sh aa cl st ss rv us opl path es [] = "" := by
  simp only [recurseChildren]

theorem recurseChildren_cons (env : Env) (sh aa cl st ss rv us opl : Bool)
    (path : String) (es : List (String × FsNode)) (file : String)
    (rest : List String) :
    recurseChildren env sh aa cl st ss rv us opl path es (file :: rest) =
      recurseStep env sh aa cl st ss rv us opl path es file ++
        recurseChildren env sh aa cl st ss rv us opl path es rest := by
  simp only [recurseChildren]

theorem list_recursive_subW :
    list_recursive envW false false true false false false false false
      "root/sub" subW = some "\nroot/sub:\nb.txt  \n" := by
  rw [show subW = FsNode.dir ⟨.dir, 0o755, 4096, 2, 0, 0, some 2⟩
    [("b.txt", fileB)] from rfl]
  rw [list_recursive_dir]
  rw [show list_files_core envW false false true false false false false
      (rawEntriesOf [("b.txt", fileB)]) = ["b.txt"] from rfl]
  rw [recurseChildren_cons, recurseChildren_nil]
  have hstep : recurseStep envW false false true false false false false false
      "root/sub" [("b.txt", fileB)] "b.txt" = "" := by
    simp [recurseStep, lookupChild, endsWithChar, dropLastChar, FsNode.isDir,
      fileB]
  rw [hstep]
  rfl

/-- **C5.** The recursive walker is a depth-first pre-order traversal: at a
directory it prints the header `\n<path>:` and a newline, renders the
short-form listing, then runs the subdirectory loop over the listed names
(general first conjunct); on the concrete tree `root/{a.txt, sub/{b.txt}}`
with classify on it prints the header and contents of `root`, then the
header and contents of `root/sub` — recursing through the name `sub/` with
the classify suffix stripped — and never revisits `root`. -/
theorem recursive_walker_preorder :
    (∀ (env : Env) (sh aa cl st ss rv us opl : Bool) (path : String)
        (m : Metadata) (es : List (String × FsNode)),
      list_recursive env sh aa cl st ss rv us opl path (.dir m es) =
        some (("\n" ++ path ++ ":\n") ++
          renderShort opl
            (list_files_core env sh aa cl st ss rv us (rawEntriesOf es)) ++
          recurseChildren env sh aa cl st ss rv us opl path es
            (list_files_core env sh aa cl st ss rv us (rawEntriesOf es)))) ∧
    list_recursive envW false false true false false false false false
        "root" treeW =
      some "\nroot:\na.txt  sub/  \n\nroot/sub:\nb.txt  \n" := by
  refine ⟨list_recursive_dir, ?_⟩
  rw [show treeW = FsNode.dir ⟨.dir, 0o755, 4096, 2, 0, 0, some 0⟩
    rootEntriesW from rfl]
  rw [list_recursive_dir]
  rw [show list_files_core envW false false true false false false false
      (rawEntriesOf rootEntriesW) = ["a.txt", "sub/"] from rfl]
  rw [recurseChildren_cons, recurseChildren_cons, recurseChildren_nil]
  have hstepA : recurseStep envW false false true false false false false false
      "root" rootEntriesW "a.txt" = "" := by
    simp [recurseStep, rootEntriesW, lookupChild, endsWithChar, dropLastChar,
      FsNode.isDir, fileA]
  have hstepS : recurseStep envW false false true false false false false false
      "root" rootEntriesW "sub/" = "\nroot/sub:\nb.txt  \n" := by
    simp only [recurseStep]
    rw [show (if (true && (endsWithChar "sub/" '/' || endsWithChar "sub/" '*')) = true
        then dropLastChar "sub/" else "sub/") = "sub" from rfl]
    rw [show lookupChild rootEntriesW "sub" = some subW from rfl]
    show (if subW.isDir = true then
        (list_recursive envW false false true false false false false false
          ("root" ++ "/" ++ "sub") subW).getD ""
      else "") = "\nroot/sub:\nb.txt  \n"
    rw [show FsNode.isDir subW = true from rfl, if_pos rfl]
    rw [show ("root" ++ "/" ++ "sub" : String) = "root/sub" from rfl]
    rw [list_recursive_subW]
    rfl
  rw [hstepA, hstepS]
  rfl

/-- **C10.** When both the long flag and the recursive flag are set,
`list_directory` dispatches to the long-format table of the root directory
only: the output is identical to the one with the recursive flag cleared,
and equals the long table built from the root's immediate entries — no
subdirectory is visited, because the long branch is tested first. -/
theorem long_flag_overrides_recursive
    (env : Env) (path : String) (root : FsNode)
    (a aa hr cl opl st ss rv us : Bool) :
    (list_directory env path root ⟨a, aa, true, true, hr, cl, opl, st, ss, rv, us⟩ =
      list_directory env path root ⟨a, aa, true, false, hr, cl, opl, st, ss, rv, us⟩) ∧
    (list_directory env path root ⟨a, aa, true, true, hr, cl, opl, st, ss, rv, us⟩ =
      (list_files_detailed env (a || aa) aa hr st ss rv us
        (readDirNode root)).map Output.longTable) := ⟨rfl, rfl⟩

theorem foldl_terminated (t : String) : ∀ (l : List String) (acc : String),
    l.foldl (fun acc file => acc ++ file ++ t) acc =
      acc ++ concatMap (fun f => f ++ t) l
  | [], acc => by
    simp [concatMap]
  | x :: xs, acc => by
    simp only [List.foldl, concatMap]
    rw [foldl_terminated t xs (acc ++ x ++ t)]
    simp [String.append_assoc]

theorem concatMap_sep_join (sep : String) :
    ∀ (f : String) (files : List String),
      concatMap (fun g => g ++ sep) (f :: files) = joinSep sep (f :: files) ++ sep
  | f, [] => by simp [concatMap, joinSep]
  | f, g :: gs => by
    have ih := concatMap_sep_join sep g gs
    simp only [concatMap, joinSep] at *
    rw [ih]
    simp [String.append_assoc]

/-- Counterexample to C9 as stated: on the listing `["a", "b"]` the packed
short form prints `"a  b  \n"` — every name (the last included) is followed
by two spaces and a single newline ends the line — which is neither the
names joined by two-space separators followed by a blank line (`"a  b\n\n"`)
nor even that line without the blank line (`"a  b\n"`). -/
theorem renderShort_packed_counterexample :
    renderShort false ["a", "b"] = "a  b  \n" ∧
    renderShortSpec ["a", "b"] = "a  b\n\n" ∧
    renderShort false ["a", "b"] ≠ renderShortSpec ["a", "b"] ∧
    renderShort false ["a", "b"] ≠ joinSep "  " ["a", "b"] ++ "\n" := by
  refine ⟨by decide, by decide, by decide, by decide⟩

/-- **C9 (amended).** If the one-per-line flag is set, the short form prints
each name followed by a newline; otherwise it prints every name — the last
included — followed by two spaces, all on one line terminated by a single
newline (no trailing blank line), so the nonempty packed line is the
two-space-joined names plus a trailing two spaces and the newline. -/
theorem renderShort_characterization :
    (∀ files, renderShort true files = concatMap (fun f => f ++ "\n") files) ∧
    (∀ files, renderShort false files =
      concatMap (fun f => f ++ "  ") files ++ "\n") ∧
    (∀ (f : String) (files : List String), renderShort false (f :: files) =
      joinSep "  " (f :: files) ++ "  " ++ "\n") ∧
    renderShort false [] = "\n" := by
  have h1 : ∀ files, renderShort true files =
      concatMap (fun f => f ++ "\n") files := by
    intro files
    simp only [renderShort, if_true]
    rw [foldl_terminated]
    simp
  have h2 : ∀ files, renderShort false files =
      concatMap (fun f => f ++ "  ") files ++ "\n" := by
    intro files
    simp only [renderShort, Bool.false_eq_true, if_false]
    rw [foldl_terminated]
    simp
  refine ⟨h1, h2, ?_, by decide⟩
  intro f files
  rw [h2 (f :: files), concatMap_sep_join]

theorem and73_eq_zero (b : Nat) : (b &&& 73 = 0) ↔
    (b.testBit 0 = false ∧ b.testBit 3 = false ∧ b.testBit 6 = false) := by
  constructor
  · intro h
    refine ⟨?_, ?_, ?_⟩
    · have h0 := congrArg (fun n => n.testBit 0) h
      simp only [Nat.testBit_and, Nat.zero_testBit] at h0
      rw [(by decide : Nat.testBit 73 0 = true), Bool.and_true] at h0
      exact h0
    · have h3 := congrArg (fun n => n.testBit 3) h
      simp only [Nat.testBit_and, Nat.zero_testBit] at h3
      rw [(by decide : Nat.testBit 73 3 = true), Bool.and_true] at h3
      exact h3
    · have h6 := congrArg (fun n => n.testBit 6) h
      simp only [Nat.testBit_and, Nat.zero_testBit] at h6
      rw [(by decide : Nat.testBit 73 6 = true), Bool.and_true] at h6
      exact h6
  · rintro ⟨h0, h3, h6⟩
    apply Nat.zero_of_testBit_eq_false
    intro i
    rw [Nat.testBit_and]
    rcases Nat.lt_or_ge i 7 with hi | hi
    · interval_cases i <;>
        simp [h0, h3, h6, (by decide : Nat.testBit 73 1 = false),
          (by decide : Nat.testBit 73 2 = false),
          (by decide : Nat.testBit 73 4 = false),
          (by decide : Nat.testBit 73 5 = false)]
    · rw [Nat.testBit_eq_false_of_lt
        (lt_of_lt_of_le (by norm_num : (73 : Nat) < 2 ^ 7)
          (Nat.pow_le_pow_right (by omega) hi)), Bool.and_false]

theorem and73_ne (b : Nat) : (b &&& 73 ≠ 0) ↔
    (b.testBit 0 = true ∨ b.testBit 3 = true ∨ b.testBit 6 = true) := by
  rw [Ne, and73_eq_zero]
  rcases Bool.dichotomy (b.testBit 0) with h0 | h0 <;>
    rcases Bool.dichotomy (b.testBit 3) with h3 | h3 <;>
      rcases Bool.dichotomy (b.testBit 6) with h6 | h6 <;>
        simp [h0, h3, h6]

/-- Counterexample to C7 as stated: a non-regular, non-directory entry
(file type `other`, e.g. a symlink) with mode `0o777` — so not "a regular
file with an execute bit" — still receives the `*` suffix from
`add_file_type_indicator`, where the claim says it should carry no suffix. -/
theorem classify_star_on_non_regular :
    add_file_type_indicator "ln" mExecW = "ln*" ∧
    add_file_type_indicator "ln" mExecW ≠ "ln" ∧
    mExecW.ftype = FileType.other ∧
    mExecW.ftype ≠ FileType.regular ∧
    mExecW.isDir = false := by decide

/-- **C7 (amended).** With the classify flag set, a short-form display name
carries suffix `/` if the entry is a directory, `*` if it is any
non-directory entry (regular or not) with at least one execute bit
(bit 0, 3 or 6 of the mode) set, and no suffix otherwise; and every name a
classified short listing produces is some entry's name with exactly the
suffix that `add_file_type_indicator` assigns from its metadata. -/
theorem classify_suffix_characterization :
    (∀ (name : String) (m : Metadata), m.isDir = true →
      add_file_type_indicator name m = name ++ "/") ∧
    (∀ (name : String) (m : Metadata), m.isDir = false →
      (m.mode.testBit 0 = true ∨ m.mode.testBit 3 = true ∨
        m.mode.testBit 6 = true) →
      add_file_type_indicator name m = name ++ "*") ∧
    (∀ (name : String) (m : Metadata), m.isDir = false →
      m.mode.testBit 0 = false → m.mode.testBit 3 = false →
      m.mode.testBit 6 = false → add_file_type_indicator name m = name) ∧
    (∀ (env : Env) (sh aa st ss rv us : Bool) (es : List (Option RawEntry))
        (f : String), f ∈ list_files_core env sh aa true st ss rv us es →
      ∃ e m, some e ∈ es ∧ e.meta = some m ∧
        f = add_file_type_indicator e.name m) := by
  refine ⟨?_, ?_, ?_, ?_⟩
  · intro name m h
    simp [add_file_type_indicator, h]
  · intro name m h hexec
    have hne : m.mode &&& 73 ≠ 0 := (and73_ne m.mode).mpr hexec
    simp [add_file_type_indicator, h, hne]
  · intro name m h h0 h3 h6
    have hz : m.mode &&& 73 = 0 := (and73_eq_zero m.mode).mpr ⟨h0, h3, h6⟩
    simp [add_file_type_indicator, h, hz]
  · intro env sh aa st ss rv us es f hmem
    simp only [list_files_core] at hmem
    rcases List.mem_map.mp hmem with ⟨t, ht, hf⟩
    have htc := (sortShort_perm st ss rv us _).mem_iff.mp ht
    rcases mem_collectShort.mp htc with ⟨oe, hoe_mem, hoe⟩
    rcases oe with _ | ⟨nm, mo⟩
    · exact absurd hoe (by simp [entryShort])
    · rw [entryShort_some] at hoe
      by_cases h1 : (!sh && startsWithDot nm) = true
      · rw [if_pos h1] at hoe
        exact absurd hoe (by simp)
      · rw [if_neg h1] at hoe
        by_cases h2 : (aa && (nm == "." || nm == "..")) = true
        · rw [if_pos h2] at hoe
          exact absurd hoe (by simp)
        · rw [if_neg h2] at hoe
          cases mo with
          | none => exact absurd hoe (by simp)
          | some m =>
            refine ⟨⟨nm, some m⟩, m, hoe_mem, rfl, ?_⟩
            have ht2 := Option.some.inj (by simpa using hoe)
            rw [← hf, ← ht2]

/-- Witness for the amended C7: a directory gets `/`, an executable
non-regular entry gets `*`, a plain file gets no suffix, and the listed
name `sub/` of a one-entry classified listing decomposes as required. -/
theorem classify_suffix_witness :
    add_file_type_indicator "sub" mDirW = "sub" ++ "/" ∧
    add_file_type_indicator "x" mExecW = "x" ++ "*" ∧
    add_file_type_indicator "f" mW = "f" ∧
    ∃ e m, some e ∈ [some (⟨"sub", some mDirW⟩ : RawEntry)] ∧
      e.meta = some m ∧ "sub/" = add_file_type_indicator e.name m :=
  ⟨classify_suffix_characterization.1 "sub" mDirW rfl,
    classify_suffix_characterization.2.1 "x" mExecW rfl (Or.inl (by decide)),
    classify_suffix_characterization.2.2.1 "f" mW rfl (by decide) (by decide)
      (by decide),
    classify_suffix_characterization.2.2.2 envW false false false false false
      false [some ⟨"sub", some mDirW⟩] "sub/" (by decide)⟩

/-- **C8.** For every directory and flag combination, the multiset (hence
set) of names a short-form listing produces is exactly the multiset of
display names of the visible (filtered, metadata-readable) entries — no
name invented, none dropped, none duplicated — and any two sort-flag
settings (unsorted included) produce permutations of each other, differing
only in order. -/
theorem short_listing_set_preserved :
    (∀ (env : Env) (sh aa cl st ss rv us : Bool) (es : List (Option RawEntry)),
      List.Perm (list_files_core env sh aa cl st ss rv us es)
        ((collectShort env sh aa cl es).map (fun t => t.1))) ∧
    (∀ (env : Env) (sh aa cl : Bool) (st₁ ss₁ rv₁ us₁ st₂ ss₂ rv₂ us₂ : Bool)
        (es : List (Option RawEntry)),
      List.Perm (list_files_core env sh aa cl st₁ ss₁ rv₁ us₁ es)
        (list_files_core env sh aa cl st₂ ss₂ rv₂ us₂ es)) := by
  have h1 : ∀ (env : Env) (sh aa cl st ss rv us : Bool)
      (es : List (Option RawEntry)),
      List.Perm (list_files_core env sh aa cl st ss rv us es)
        ((collectShort env sh aa cl es).map (fun t => t.1)) := by
    intro env sh aa cl st ss rv us es
    simp only [list_files_core]
    exact (sortShort_perm st ss rv us _).map _
  exact ⟨h1, fun env sh aa cl st₁ ss₁ rv₁ us₁ st₂ ss₂ rv₂ us₂ es =>
    (h1 env sh aa cl st₁ ss₁ rv₁ us₁ es).trans
      (h1 env sh aa cl st₂ ss₂ rv₂ us₂ es).symm⟩

/-- **C2.** Exactly one ordering is active per listing, chosen by priority.
With the unsorted flag, no sort runs: the raw filtered order is returned
whatever the key flags say.  Otherwise time-sort wins over size-sort (the
size flag is universally quantified in the time conjuncts), size-sort over
name-sort, and name-sort is the default.  Directions: name ascending
lexicographic and descending when reversed; time and size descending by
default (newest / largest first) and ascending when reversed — reversed
time-sort is oldest first.  Stated for both the long form (`FileInfo`
fields) and the short form (collected triples and the final name list). -/
theorem sort_priority_and_directions
    (env : Env) (sh aa cl hr : Bool) (es : List (Option RawEntry)) :
    (∀ st ss rv, list_files_detailed_core env sh aa hr st ss rv true es =
      collectDetailed env sh aa hr es) ∧
    (∀ st ss rv, list_files_core env sh aa cl st ss rv true es =
      (collectShort env sh aa cl es).map (fun t => t.1)) ∧
    (∀ ss, List.Pairwise (fun a b => b.modified_time ≤ a.modified_time)
      (list_files_detailed_core env sh aa hr true ss false false es)) ∧
    (∀ ss, List.Pairwise (fun a b => a.modified_time ≤ b.modified_time)
      (list_files_detailed_core env sh aa hr true ss true false es)) ∧
    (List.Pairwise (fun a b => b.file_size ≤ a.file_size)
      (list_files_detailed_core env sh aa hr false true false false es)) ∧
    (List.Pairwise (fun a b => a.file_size ≤ b.file_size)
      (list_files_detailed_core env sh aa hr false true true false es)) ∧
    (List.Pairwise (fun a b => ¬ List.Lex charLt b.name.data a.name.data)
      (list_files_detailed_core env sh aa hr false false false false es)) ∧
    (List.Pairwise (fun a b => ¬ List.Lex charLt a.name.data b.name.data)
      (list_files_detailed_core env sh aa hr false false true false es)) ∧
    (∀ ss, List.Pairwise (fun a b => b.2.2 ≤ a.2.2)
      (sortShort true ss false false (collectShort env sh aa cl es))) ∧
    (∀ ss, List.Pairwise (fun a b => a.2.2 ≤ b.2.2)
      (sortShort true ss true false (collectShort env sh aa cl es))) ∧
    (List.Pairwise (fun a b => b.2.1.len ≤ a.2.1.len)
      (sortShort false true false false (collectShort env sh aa cl es))) ∧
    (List.Pairwise (fun a b => a.2.1.len ≤ b.2.1.len)
      (sortShort false true true false (collectShort env sh aa cl es))) ∧
    (List.Pairwise (fun a b : String => ¬ List.Lex charLt b.data a.data)
      (list_files_core env sh aa cl false false false false es)) ∧
    (List.Pairwise (fun a b : String => ¬ List.Lex charLt a.data b.data)
      (list_files_core env sh aa cl false false true false es)) := by
  refine ⟨fun st ss rv => rfl, fun st ss rv => rfl, ?_, ?_, ?_, ?_, ?_, ?_,
    ?_, ?_, ?_, ?_, ?_, ?_⟩
  · intro ss
    have hp := pairwise_sortBy
      (fun a b : FileInfo => compare b.modified_time a.modified_time)
      (fun a b h => natCmp_asymm h)
      (fun a b c h1 h2 => natCmp_trans h2 h1)
      (collectDetailed env sh aa hr es)
    exact hp.imp fun h =>
      Nat.le_of_not_lt fun hlt => h (Nat.compare_eq_gt.mpr hlt)
  · intro ss
    have hp := pairwise_sortBy
      (fun a b : FileInfo => compare a.modified_time b.modified_time)
      (fun a b h => natCmp_asymm h)
      (fun a b c h1 h2 => natCmp_trans h1 h2)
      (collectDetailed env sh aa hr es)
    exact hp.imp fun h =>
      Nat.le_of_not_lt fun hlt => h (Nat.compare_eq_gt.mpr hlt)
  · have hp := pairwise_sortBy
      (fun a b : FileInfo => compare b.file_size a.file_size)
      (fun a b h => natCmp_asymm h)
      (fun a b c h1 h2 => natCmp_trans h2 h1)
      (collectDetailed env sh aa hr es)
    exact hp.imp fun h =>
      Nat.le_of_not_lt fun hlt => h (Nat.compare_eq_gt.mpr hlt)
  · have hp := pairwise_sortBy
      (fun a b : FileInfo => compare a.file_size b.file_size)
      (fun a b h => natCmp_asymm h)
      (fun a b c h1 h2 => natCmp_trans h1 h2)
      (collectDetailed env sh aa hr es)
    exact hp.imp fun h =>
      Nat.le_of_not_lt fun hlt => h (Nat.compare_eq_gt.mpr hlt)
  · have hp := pairwise_sortBy
      (fun a b : FileInfo => cmpStr a.name b.name)
      (fun a b h => cmpStr_asymm h)
      (fun a b c h1 h2 => cmpStr_trans h1 h2)
      (collectDetailed env sh aa hr es)
    exact hp.imp fun h hlex => h (cmpStr_gt_iff.mpr hlex)
  · have hp := pairwise_sortBy
      (fun a b : FileInfo => cmpStr b.name a.name)
      (fun a b h => cmpStr_asymm h)
      (fun a b c h1 h2 => cmpStr_trans h2 h1)
      (collectDetailed env sh aa hr es)
    exact hp.imp fun h hlex => h (cmpStr_gt_iff.mpr hlex)
  · intro ss
    have hp := pairwise_sortBy
      (fun a b : String × Metadata × Nat => compare b.2.2 a.2.2)
      (fun a b h => natCmp_asymm h)
      (fun a b c h1 h2 => natCmp_trans h2 h1)
      (collectShort env sh aa cl es)
    exact hp.imp fun h =>
      Nat.le_of_not_lt fun hlt => h (Nat.compare_eq_gt.mpr hlt)
  · intro ss
    have hp := pairwise_sortBy
      (fun a b : String × Metadata × Nat => compare a.2.2 b.2.2)
      (fun a b h => natCmp_asymm h)
      (fun a b c h1 h2 => natCmp_trans h1 h2)
      (collectShort env sh aa cl es)
    exact hp.imp fun h =>
      Nat.le_of_not_lt fun hlt => h (Nat.compare_eq_gt.mpr hlt)
  · have hp := pairwise_sortBy
      (fun a b : String × Metadata × Nat => compare b.2.1.len a.2.1.len)
      (fun a b h => natCmp_asymm h)
      (fun a b c h1 h2 => natCmp_trans h2 h1)
      (collectShort env sh aa cl es)
    exact hp.imp fun h =>
      Nat.le_of_not_lt fun hlt => h (Nat.compare_eq_gt.mpr hlt)
  · have hp := pairwise_sortBy
      (fun a b : String × Metadata × Nat => compare a.2.1.len b.2.1.len)
      (fun a b h => natCmp_asymm h)
      (fun a b c h1 h2 => natCmp_trans h1 h2)
      (collectShort env sh aa cl es)
    exact hp.imp fun h =>
      Nat.le_of_not_lt fun hlt => h (Nat.compare_eq_gt.mpr hlt)
  · have hp := pairwise_sortBy
      (fun a b : String × Metadata × Nat => cmpStr a.1 b.1)
      (fun a b h => cmpStr_asymm h)
      (fun a b c h1 h2 => cmpStr_trans h1 h2)
      (collectShort env sh aa cl es)
    simp only [list_files_core]
    exact List.pairwise_map.mpr (hp.imp fun h hlex => h (cmpStr_gt_iff.mpr hlex))
  · have hp := pairwise_sortBy
      (fun a b : String × Metadata × Nat => cmpStr b.1 a.1)
      (fun a b h => cmpStr_asymm h)
      (fun a b c h1 h2 => cmpStr_trans h2 h1)
      (collectShort env sh aa cl es)
    simp only [list_files_core]
    exact List.pairwise_map.mpr (hp.imp fun h hlex => h (cmpStr_gt_iff.mpr hlex))

end LsOxide
